import Mathlib

/-!
Verification of the allocation core of `auto_invest.py` (schwab-autoinvest).

The embedding models the two functions of `src/auto_invest.py` that the
claims are about:

* `AutoInvestor.calculate_allocation` (lines 113-144): given the configured
  `allocation` mapping (symbol -> target percentage, insertion ordered), the
  `min_investment_amount` threshold, the available funds and a price table,
  it returns the list of `(symbol, shares, dollar_amount)` tuples.  Python
  floats are modelled as rationals, the `dict` of weights as an insertion
  ordered association list, the price `dict` as a partial map
  `String → Option ℚ`, and Python's `int()` truncation as `pyint`.

* `AutoInvestor.place_limit_orders` (lines 146-206): the per-order loop is
  modelled as a fold over the order list where the outcome of the I/O for
  each symbol (price lookup, exception, HTTP status of `place_order`) is an
  oracle `String → OrderOutcome`.

A reference allocator (`greedy_allocate`) is modelled from the spec's words
(§4.1, greedy marginal improvement) for the refinement claim; it is *not*
code of `auto_invest.py`.
-/

namespace AutoInvest

/-- Python's `int()` applied to a nonnegative-or-negative real: truncation
toward zero. -/
def pyint (q : ℚ) : ℤ := if q < 0 then -⌊-q⌋ else ⌊q⌋

/-- The price table `prices: dict[str, float]`; `none` models
`symbol not in prices`. -/
abbrev Prices := String → Option ℚ

/-- The configured `allocation` mapping, in dict insertion order. -/
abbrev Alloc := List (String × ℚ)

/-- One iteration of the `for symbol, target_pct in allocations.items()` loop
of `calculate_allocation`: skip when the symbol has no price or a price ≤ 0,
otherwise compute `target_amount`, the whole-share count and the actual
dollar amount, and emit a tuple only when `shares > 0`. -/
def alloc_item (available_funds : ℚ) (prices : Prices) (sw : String × ℚ) :
    Option (String × ℤ × ℚ) :=
  match prices sw.1 with
  | none => none
  | some price =>
    if price ≤ 0 then none
    else
      let target_amount := available_funds * (sw.2 / 100)
      let shares := pyint (target_amount / price)
      if 0 < shares then some (sw.1, shares, (shares : ℚ) * price) else none

/-- `AutoInvestor.calculate_allocation` (src/auto_invest.py lines 113-144):
returns `[]` when the available funds are below the minimum-investment
threshold, otherwise one `(symbol, shares, actual_amount)` tuple per
configured symbol with a valid price and a positive whole-share count. -/
def calculate_allocation (allocations : Alloc)
    (min_investment available_funds : ℚ) (prices : Prices) :
    List (String × ℤ × ℚ) :=
  if available_funds < min_investment then []
  else allocations.filterMap (alloc_item available_funds prices)

/-- The `total_allocated` accumulator of `calculate_allocation`: the total
dollar cost of the returned orders. -/
def total_allocated (orders : List (String × ℤ × ℚ)) : ℚ :=
  (orders.map fun t => t.2.2).sum

/-- Outcome of the I/O performed for one order inside the
`place_limit_orders` loop. -/
inductive OrderOutcome : Type
  /-- `get_current_prices` returned no price for the symbol. -/
  | priceMissing : OrderOutcome
  /-- an exception was raised while processing this order. -/
  | exn : OrderOutcome
  /-- `place_order` would respond with this HTTP status code
  (not consulted in dry-run mode). -/
  | response (status : ℕ) : OrderOutcome

/-- Whether one iteration of the `place_limit_orders` loop leaves
`all_successful` untouched (`true`) or clears it (`false`), given the I/O
outcome for that order. -/
def attempt_order (dry_run : Bool) (oc : OrderOutcome) : Bool :=
  match oc with
  | .priceMissing => false
  | .exn => false
  | .response status => if dry_run then true else status == 201

/-- `AutoInvestor.place_limit_orders` (src/auto_invest.py lines 146-206):
processes every order in sequence, recording the per-order outcome, and
returns the final `all_successful` flag; an empty order list returns `true`
immediately. -/
def place_limit_orders (dry_run : Bool) (outcome : String → OrderOutcome)
    (orders : List (String × ℤ × ℚ)) : List (String × Bool) × Bool :=
  orders.foldl
    (fun acc o =>
      (acc.1 ++ [(o.1, attempt_order dry_run (outcome o.1))],
       acc.2 && attempt_order dry_run (outcome o.1)))
    ([], true)

/-! ### Basic lemmas about `pyint` -/

lemma pyint_of_nonneg {q : ℚ} (h : 0 ≤ q) : pyint q = ⌊q⌋ := by
  unfold pyint
  rw [if_neg (not_lt.2 h)]

lemma pyint_pos_iff {q : ℚ} : 0 < pyint q ↔ 1 ≤ q := by
  unfold pyint
  by_cases h : q < 0
  · rw [if_pos h]
    constructor
    · intro hpos
      exfalso
      have h1 : (0 : ℤ) ≤ ⌊-q⌋ := Int.floor_nonneg.2 (by linarith)
      omega
    · intro h1; linarith
  · rw [if_neg h]
    rw [show (0 : ℤ) < ⌊q⌋ ↔ 1 ≤ ⌊q⌋ by omega, Int.le_floor]
    push_cast
    rfl

lemma pyint_cast_le {q : ℚ} (h : 0 ≤ q) : (pyint q : ℚ) ≤ q := by
  rw [pyint_of_nonneg h]
  exact_mod_cast Int.floor_le q

/-! ### Rewriting lemmas for `alloc_item` -/

lemma alloc_item_none (prices : Prices) (sw : String × ℚ) (funds : ℚ)
    (h : prices sw.1 = none) :
    alloc_item funds prices sw = none := by
  unfold alloc_item
  rw [h]

lemma alloc_item_some (prices : Prices) (sw : String × ℚ) (price funds : ℚ)
    (h : prices sw.1 = some price) :
    alloc_item funds prices sw =
      if price ≤ 0 then none
      else
        if 0 < pyint (funds * (sw.2 / 100) / price) then
          some (sw.1, pyint (funds * (sw.2 / 100) / price),
            (pyint (funds * (sw.2 / 100) / price) : ℚ) * price)
        else none := by
  unfold alloc_item
  rw [h]

/-- Inversion: a tuple emitted by the loop body comes from a present,
positive price and a positive truncated share count. -/
lemma alloc_item_eq_some {funds : ℚ} {prices : Prices} {sw : String × ℚ}
    {e : String × ℤ × ℚ} (h : alloc_item funds prices sw = some e) :
    ∃ price, prices sw.1 = some price ∧ 0 < price ∧
      0 < pyint (funds * (sw.2 / 100) / price) ∧
      e = (sw.1, pyint (funds * (sw.2 / 100) / price),
        (pyint (funds * (sw.2 / 100) / price) : ℚ) * price) := by
  rcases hp : prices sw.1 with _ | price
  · rw [alloc_item_none prices sw funds hp] at h
    exact absurd h (by simp)
  · rw [alloc_item_some prices sw price funds hp] at h
    by_cases h0 : price ≤ 0
    · rw [if_pos h0] at h
      exact absurd h (by simp)
    · rw [if_neg h0] at h
      by_cases hn : 0 < pyint (funds * (sw.2 / 100) / price)
      · rw [if_pos hn] at h
        exact ⟨price, rfl, lt_of_not_le h0, hn, (Option.some.inj h).symm⟩
      · rw [if_neg hn] at h
        exact absurd h (by simp)

/-- Membership characterisation for the result of `calculate_allocation`. -/
lemma mem_calculate_allocation {alloc : Alloc} {m funds : ℚ}
    {prices : Prices} {e : String × ℤ × ℚ}
    (h : e ∈ calculate_allocation alloc m funds prices) :
    ¬ funds < m ∧ ∃ w, (e.1, w) ∈ alloc ∧ ∃ price,
      prices e.1 = some price ∧ 0 < price ∧
      e.2.1 = pyint (funds * (w / 100) / price) ∧ 0 < e.2.1 ∧
      e.2.2 = (e.2.1 : ℚ) * price := by
  unfold calculate_allocation at h
  by_cases hm : funds < m
  · rw [if_pos hm] at h
    exact absurd h (by simp)
  · rw [if_neg hm] at h
    rcases List.mem_filterMap.1 h with ⟨a, ha, hae⟩
    rcases alloc_item_eq_some hae with ⟨price, hp, h0, hn, he⟩
    refine ⟨hm, a.2, ?_, price, ?_, h0, ?_, ?_, ?_⟩
    · rw [he]; exact ha
    · rw [he]; exact hp
    · rw [he]
    · rw [he]; exact hn
    · rw [he]

/-- In a list with nodup keys, a key determines its weight. -/
lemma key_weight_unique {l : Alloc} (hnd : (l.map Prod.fst).Nodup)
    {s : String} {w w' : ℚ} (h1 : (s, w) ∈ l) (h2 : (s, w') ∈ l) : w = w' := by
  induction l with
  | nil => cases h1
  | cons a t ih =>
    rw [List.map_cons, List.nodup_cons] at hnd
    rcases List.mem_cons.1 h1 with h1 | h1 <;>
      rcases List.mem_cons.1 h2 with h2 | h2
    · exact (Prod.ext_iff.1 (h1.trans h2.symm)).2
    · exfalso
      apply hnd.1
      rw [← h1]
      exact List.mem_map.2 ⟨(s, w'), h2, rfl⟩
    · exfalso
      apply hnd.1
      rw [← h2]
      exact List.mem_map.2 ⟨(s, w), h1, rfl⟩
    · exact ih hnd.2 h1 h2

/-- The keys of the emitted tuples form a sublist of the configured keys:
the loop preserves iteration order and emits at most one tuple per entry. -/
lemma keys_sublist (funds : ℚ) (prices : Prices) (l : Alloc) :
    List.Sublist ((l.filterMap (alloc_item funds prices)).map Prod.fst)
      (l.map Prod.fst) := by
  induction l with
  | nil => simp
  | cons a t ih =>
    rw [List.filterMap_cons, List.map_cons]
    rcases h : alloc_item funds prices a with _ | e
    · exact ih.cons a.1
    · rcases alloc_item_eq_some h with ⟨price, -, -, -, he⟩
      rw [List.map_cons, he]
      exact ih.cons₂ a.1

/-! ### Reference allocator, modelled from the spec (§4.1)

The spec describes the allocator as a greedy marginal-improvement loop.  The
repository's test suite exercises this behaviour through a function
`calculate_optimal_allocation` that is imported by `test_auto_invest.py` but
is absent from `src/auto_invest.py`; the definitions below therefore follow
the spec's words, not source code. -/

/-- Modelled from the spec: the reduction in absolute dollar deviation
obtained by buying one more share,
`|held - target| - |held + price - target|`. -/
def greedy_improvement (target held price : ℚ) : ℚ :=
  |held - target| - |held + price - target|

/-- Modelled from the spec (§4.1 step 3): a security is a purchase candidate
when its price is positive and at most `remaining` and buying one share
strictly improves the deviation; a missing price is treated as 0 and hence
never a candidate. -/
def greedy_candidate (cash weight_sum remaining : ℚ) (prices : Prices)
    (counts : String → ℕ) (sw : String × ℚ) : Option (String × ℚ × ℚ) :=
  let price := (prices sw.1).getD 0
  if 0 < price ∧ price ≤ remaining then
    let target := cash * sw.2 / weight_sum
    let held := (counts sw.1 : ℚ) * price
    let imp := greedy_improvement target held price
    if 0 < imp then some (sw.1, price, imp) else none
  else none

/-- Modelled from the spec: keep the earlier candidate unless the new one has
a strictly larger improvement (ties broken by iteration order: the first
security with the strictly best improvement wins). -/
def greedy_better (best cand : Option (String × ℚ × ℚ)) :
    Option (String × ℚ × ℚ) :=
  match best, cand with
  | none, c => c
  | some b, none => some b
  | some b, some c => if b.2.2 < c.2.2 then some c else some b

/-- Modelled from the spec: the winning security of one greedy iteration,
with its price and improvement, or `none` when no affordable purchase yields
a strictly positive improvement. -/
def greedy_pick (cash weight_sum remaining : ℚ) (prices : Prices)
    (counts : String → ℕ) (weights : Alloc) : Option (String × ℚ × ℚ) :=
  weights.foldl
    (fun best sw =>
      greedy_better best
        (greedy_candidate cash weight_sum remaining prices counts sw))
    none

/-- Modelled from the spec (§4.1 steps 3-5): buy one share of the winning
security and repeat; the fuel argument realises the spec's termination bound
(§8, at most `cash / min(positive price)` iterations). -/
def greedy_loop (cash weight_sum : ℚ) (prices : Prices) (weights : Alloc) :
    ℕ → (String → ℕ) → ℚ → (String → ℕ) × ℚ
  | 0, counts, remaining => (counts, remaining)
  | fuel + 1, counts, remaining =>
    match greedy_pick cash weight_sum remaining prices counts weights with
    | none => (counts, remaining)
    | some pick =>
      greedy_loop cash weight_sum prices weights fuel
        (fun s => if s = pick.1 then counts s + 1 else counts s)
        (remaining - pick.2.1)

/-- Modelled from the spec (§8): the minimum positive price of the universe,
or 0 when no security has a positive price. -/
def min_positive_price (prices : Prices) (weights : Alloc) : ℚ :=
  weights.foldl
    (fun m sw =>
      let p := (prices sw.1).getD 0
      if 0 < p ∧ (m ≤ 0 ∨ p < m) then p else m)
    0

/-- Modelled from the spec (§8): enough iterations for the greedy loop,
`cash / min(positive price)` rounded down, plus one final iteration that
detects that no further purchase improves. -/
def greedy_fuel (cash : ℚ) (prices : Prices) (weights : Alloc) : ℕ :=
  if 0 < min_positive_price prices weights then
    (⌊cash / min_positive_price prices weights⌋).toNat + 1
  else 1

/-- Modelled from the spec (§4.1): the reference greedy allocator; returns
one `(security, share count)` entry per key of the weights mapping, in
iteration order, target dollar amounts being `cash * weight / sum(weights)`. -/
def greedy_allocate (cash : ℚ) (prices : Prices) (weights : Alloc) :
    List (String × ℕ) :=
  weights.map fun sw =>
    (sw.1,
      (greedy_loop cash ((weights.map Prod.snd).sum) prices weights
        (greedy_fuel cash prices weights) (fun _ => 0) cash).1 sw.1)

/-! ### The fold of `place_limit_orders`, solved in closed form -/

lemma place_limit_orders_foldl (d : Bool) (outcome : String → OrderOutcome)
    (orders : List (String × ℤ × ℚ)) :
    ∀ acc : List (String × Bool) × Bool,
      orders.foldl
        (fun acc o =>
          (acc.1 ++ [(o.1, attempt_order d (outcome o.1))],
           acc.2 && attempt_order d (outcome o.1))) acc
      = (acc.1 ++ orders.map (fun o => (o.1, attempt_order d (outcome o.1))),
         acc.2 && orders.all (fun o => attempt_order d (outcome o.1))) := by
  induction orders with
  | nil => intro acc; simp
  | cons o t ih =>
    intro acc
    rw [List.foldl_cons, ih]
    simp [Bool.and_assoc]

/-! ### Cost bound for the allocation loop -/

/-- Each emitted tuple costs at most `funds/100` times its weight, so the
whole loop costs at most `funds/100` times the weight sum. -/
lemma total_filterMap_le (funds : ℚ) (prices : Prices) (hf : 0 ≤ funds)
    (l : Alloc) (hw : ∀ sw ∈ l, 0 ≤ sw.2) :
    total_allocated (l.filterMap (alloc_item funds prices)) ≤
      funds / 100 * (l.map Prod.snd).sum := by
  induction l with
  | nil => simp [total_allocated]
  | cons a t ih =>
    have ha : 0 ≤ a.2 := hw a (List.mem_cons_self a t)
    have ht := ih fun sw hsw => hw sw (List.mem_cons_of_mem a hsw)
    rw [List.filterMap_cons, List.map_cons, List.sum_cons, mul_add]
    rcases h : alloc_item funds prices a with _ | e
    · have hpos : 0 ≤ funds / 100 * a.2 := by positivity
      linarith
    · rcases alloc_item_eq_some h with ⟨price, hp, h0, hn, he⟩
      have htot : total_allocated (e :: t.filterMap (alloc_item funds prices))
          = e.2.2 + total_allocated (t.filterMap (alloc_item funds prices)) := by
        simp [total_allocated]
      rw [htot]
      have hq : 0 ≤ funds * (a.2 / 100) / price := by positivity
      have h1 : (pyint (funds * (a.2 / 100) / price) : ℚ)
          ≤ funds * (a.2 / 100) / price := pyint_cast_le hq
      have hcost : e.2.2 ≤ funds / 100 * a.2 := by
        rw [he]
        calc (pyint (funds * (a.2 / 100) / price) : ℚ) * price
            ≤ funds * (a.2 / 100) / price * price :=
              mul_le_mul_of_nonneg_right h1 h0.le
          _ = funds * (a.2 / 100) := div_mul_cancel₀ _ h0.ne'
          _ = funds / 100 * a.2 := by ring
      linarith

/-! ### Concrete price tables used by the claims' concrete inputs -/

/-- Prices `{"A": 50, "B": 50}`. -/
def pricesAB : Prices :=
  fun s => if s = "A" then some 50 else if s = "B" then some 50 else none

/-- Prices `{"VTI": 100, "VXUS": 50}` (the repository tests' standard table). -/
def pricesVV : Prices :=
  fun s => if s = "VTI" then some 100 else if s = "VXUS" then some 50 else none

/-- Prices `{"A": 100}` (no entry for `"B"`). -/
def pricesA100 : Prices := fun s => if s = "A" then some 100 else none

/-- Prices `{"VTI": 2000, "VXUS": 50}`. -/
def pricesVexp : Prices :=
  fun s => if s = "VTI" then some 2000 else if s = "VXUS" then some 50 else none

/-- Prices `{"A": 0, "B": 50}` (`A` has an invalid price). -/
def pricesZeroA : Prices :=
  fun s => if s = "A" then some 0 else if s = "B" then some 50 else none

/-- Prices `{"A": 300}`. -/
def pricesA300 : Prices := fun s => if s = "A" then some 300 else none

lemma pricesAB_A : pricesAB "A" = some 50 := rfl
lemma pricesAB_B : pricesAB "B" = some 50 := rfl
lemma pricesVV_VTI : pricesVV "VTI" = some 100 := rfl
lemma pricesVV_VXUS : pricesVV "VXUS" = some 50 := rfl
lemma pricesA100_A : pricesA100 "A" = some 100 := rfl
lemma pricesA100_B : pricesA100 "B" = none := rfl
lemma pricesVexp_VTI : pricesVexp "VTI" = some 2000 := rfl
lemma pricesVexp_VXUS : pricesVexp "VXUS" = some 50 := rfl
lemma pricesZeroA_A : pricesZeroA "A" = some 0 := rfl
lemma pricesZeroA_B : pricesZeroA "B" = some 50 := rfl
lemma pricesA300_A : pricesA300 "A" = some 300 := rfl

/-! ### Claim C1 (no-overspend) -/

/-- C1, counterexample: with weights `{"A": 100, "B": 100}` (positive, not
normalized to 100, as the claim allows), prices of 50 each and 100 of
available funds, the allocator spends 200 — the returned allocation costs
more than the available funds, so the no-overspend claim is false for
arbitrary positive weights. -/
theorem C1_no_overspend_counterexample :
    ¬ total_allocated
        (calculate_allocation [("A", 100), ("B", 100)] 100 100 pricesAB)
      ≤ 100 := by
  have hres : calculate_allocation [("A", 100), ("B", 100)] 100 100 pricesAB
      = [("A", 2, 100), ("B", 2, 100)] := by
    rw [calculate_allocation, if_neg (by norm_num), List.filterMap_cons,
      List.filterMap_cons, List.filterMap_nil,
      alloc_item_some pricesAB ("A", 100) 50 100 pricesAB_A,
      alloc_item_some pricesAB ("B", 100) 50 100 pricesAB_B]
    norm_num [pyint]
  rw [hres]
  norm_num [total_allocated]

/-- C1, amended: the no-overspend invariant
`sum(shares * price) ≤ available_funds` holds whenever the weights are
nonnegative and sum to at most 100 (the source treats each weight as a
percentage of the available funds and never normalizes by the weight sum). -/
theorem C1_no_overspend_of_weights_le_100 (alloc : Alloc) (m funds : ℚ)
    (prices : Prices) (hf : 0 ≤ funds) (hw : ∀ sw ∈ alloc, 0 ≤ sw.2)
    (hsum : (alloc.map Prod.snd).sum ≤ 100) :
    total_allocated (calculate_allocation alloc m funds prices) ≤ funds := by
  unfold calculate_allocation
  by_cases hm : funds < m
  · rw [if_pos hm]
    simpa [total_allocated] using hf
  · rw [if_neg hm]
    refine le_trans (total_filterMap_le funds prices hf alloc hw) ?_
    have h100 : (0 : ℚ) ≤ funds / 100 := by positivity
    calc funds / 100 * (alloc.map Prod.snd).sum
        ≤ funds / 100 * 100 := mul_le_mul_of_nonneg_left hsum h100
      _ = funds := div_mul_cancel₀ funds (by norm_num)


/-- C1 witness: at `allocate(1000, {"A":50,"B":50}, min=100)` with prices of
50 the amended no-overspend theorem applies and bounds the cost by 1000. -/
theorem C1_no_overspend_witness :
    total_allocated
      (calculate_allocation [("A", 50), ("B", 50)] 100 1000 pricesAB) ≤ 1000 := by
  refine C1_no_overspend_of_weights_le_100 [("A", 50), ("B", 50)] 100 1000
    pricesAB (by norm_num) ?_ ?_
  · intro sw hsw
    rcases List.mem_cons.1 hsw with h | h
    · rw [h]; norm_num
    · rcases List.mem_cons.1 h with h' | h'
      · rw [h']; norm_num
      · cases h'
  · norm_num

/-! ### Claim C3 (missing price) -/

/-- C3: at the spec's own example `allocate(1000, {"A":100}, {"A":50,"B":50})`
the source does not fail with a lookup error naming `"B"`; it silently skips
`"B"` and returns the `"A"` order, refuting the claim (the code has no raise
path: the embedding is a total function). -/
theorem C3_missing_price_silently_skipped :
    calculate_allocation [("A", 50), ("B", 50)] 100 1000 pricesA100
      = [("A", 5, 500)] := by
  rw [calculate_allocation, if_neg (by norm_num), List.filterMap_cons,
    List.filterMap_cons, List.filterMap_nil,
    alloc_item_some pricesA100 ("A", 50) 100 1000 pricesA100_A,
    alloc_item_none pricesA100 ("B", 50) 1000 pricesA100_B]
  norm_num [pyint]

/-! ### Claim C4 (zero weight sum) -/

/-- C4: with the all-zero weights `{"VTI":0,"VXUS":0}` the source does not
fail with a divide-by-zero-class error; it returns the empty order list
(the code never divides by the weight sum), refuting the claim. -/
theorem C4_zero_weight_sum_returns_empty :
    calculate_allocation [("VTI", 0), ("VXUS", 0)] 100 1000 pricesVV = [] := by
  rw [calculate_allocation, if_neg (by norm_num), List.filterMap_cons,
    List.filterMap_cons, List.filterMap_nil,
    alloc_item_some pricesVV ("VTI", 0) 100 1000 pricesVV_VTI,
    alloc_item_some pricesVV ("VXUS", 0) 50 1000 pricesVV_VXUS]
  norm_num [pyint]

/-! ### Claim C5 (entry for every key) -/

/-- C5: at `allocate(1000, {"VTI":2000,"VXUS":50}, {"VTI":50,"VXUS":50})` the
computed `"VTI"` share count is 0 and the returned allocation omits `"VTI"`
entirely (it is not present with count 0), refuting the claim that every key
of the weights mapping appears in the result. -/
theorem C5_zero_share_key_omitted :
    calculate_allocation [("VTI", 50), ("VXUS", 50)] 100 1000 pricesVexp
        = [("VXUS", 10, 500)]
    ∧ "VTI" ∉ (calculate_allocation [("VTI", 50), ("VXUS", 50)] 100 1000
        pricesVexp).map Prod.fst := by
  have hres : calculate_allocation [("VTI", 50), ("VXUS", 50)] 100 1000
      pricesVexp = [("VXUS", 10, 500)] := by
    rw [calculate_allocation, if_neg (by norm_num), List.filterMap_cons,
      List.filterMap_cons, List.filterMap_nil,
      alloc_item_some pricesVexp ("VTI", 50) 2000 1000 pricesVexp_VTI,
      alloc_item_some pricesVexp ("VXUS", 50) 50 1000 pricesVexp_VXUS]
    norm_num [pyint]
  refine ⟨hres, ?_⟩
  rw [hres]
  simp

/-! ### Claim C2 (equivalence with the greedy reference) -/

lemma greedy_pick_75_first :
    greedy_pick 75 100 75 pricesVV (fun _ => 0) [("VTI", 50), ("VXUS", 50)]
      = some ("VXUS", 50, 25) := by
  simp only [greedy_pick, List.foldl_cons, List.foldl_nil, greedy_candidate,
    greedy_improvement, pricesVV_VTI, pricesVV_VXUS, Option.getD_some]
  norm_num [greedy_better, abs_eq_max_neg, max_def]

lemma greedy_pick_75_second :
    greedy_pick 75 100 25 pricesVV
      (fun s => if s = "VXUS" then 1 else 0) [("VTI", 50), ("VXUS", 50)]
      = none := by
  simp only [greedy_pick, List.foldl_cons, List.foldl_nil, greedy_candidate,
    greedy_improvement, pricesVV_VTI, pricesVV_VXUS, Option.getD_some]
  norm_num [greedy_better, abs_eq_max_neg, max_def]

lemma greedy_fuel_75 : greedy_fuel 75 pricesVV [("VTI", 50), ("VXUS", 50)] = 2 := by
  have hm : min_positive_price pricesVV [("VTI", 50), ("VXUS", 50)] = 50 := by
    simp only [min_positive_price, List.foldl_cons, List.foldl_nil,
      pricesVV_VTI, pricesVV_VXUS, Option.getD_some]
    norm_num
  rw [greedy_fuel, hm]
  norm_num

lemma greedy_75_eval :
    greedy_allocate 75 pricesVV [("VTI", 50), ("VXUS", 50)]
      = [("VTI", 0), ("VXUS", 1)] := by
  have hsum : ((([("VTI", 50), ("VXUS", 50)] : Alloc).map Prod.snd).sum : ℚ)
      = 100 := by norm_num
  have hloop : greedy_loop 75 100 pricesVV [("VTI", 50), ("VXUS", 50)] 2
      (fun _ => 0) 75 = (fun s => if s = "VXUS" then 1 else 0, 25) := by
    rw [show (2 : ℕ) = 1 + 1 from rfl, greedy_loop, greedy_pick_75_first]
    simp only []
    norm_num
    rw [show (1 : ℕ) = 0 + 1 from rfl, greedy_loop, greedy_pick_75_second]
  rw [greedy_allocate, hsum, greedy_fuel_75, hloop]
  simp

/-- C2: the source allocator does not compute the greedy reference's share
counts.  At the repository test input `test_can_only_afford_one_stock_type`
(cash 75, prices {"VTI":100,"VXUS":50}, weights {"VTI":50,"VXUS":50}) the
greedy reference buys one share of VXUS, while `calculate_allocation`
returns no orders — both with the source's default minimum-investment
threshold of 100 and with the threshold lowered to 0. -/
theorem C2_not_greedy_equivalent :
    calculate_allocation [("VTI", 50), ("VXUS", 50)] 100 75 pricesVV = []
    ∧ calculate_allocation [("VTI", 50), ("VXUS", 50)] 0 75 pricesVV = []
    ∧ greedy_allocate 75 pricesVV [("VTI", 50), ("VXUS", 50)]
        = [("VTI", 0), ("VXUS", 1)] := by
  refine ⟨?_, ?_, greedy_75_eval⟩
  · rw [calculate_allocation, if_pos (by norm_num)]
  · rw [calculate_allocation, if_neg (by norm_num), List.filterMap_cons,
      List.filterMap_cons, List.filterMap_nil,
      alloc_item_some pricesVV ("VTI", 50) 100 75 pricesVV_VTI,
      alloc_item_some pricesVV ("VXUS", 50) 50 75 pricesVV_VXUS]
    norm_num [pyint]

/-! ### Claim C6 (price ≤ 0 never purchased) -/

/-- C6: a security whose price is ≤ 0 is never assigned a positive share
count — it never appears in the result at all — and at the spec's example
`allocate(1000, {"A":0.0,"B":50}, {"A":50,"B":50})` only B is bought, with a
count of 10 > 0. -/
theorem C6_nonpositive_price_never_bought :
    (∀ (alloc : Alloc) (m funds : ℚ) (prices : Prices) (s : String) (p : ℚ),
        prices s = some p → p ≤ 0 →
        s ∉ (calculate_allocation alloc m funds prices).map Prod.fst)
    ∧ calculate_allocation [("A", 50), ("B", 50)] 100 1000 pricesZeroA
        = [("B", 10, 500)] := by
  constructor
  · intro alloc m funds prices s p hp hple hmem
    rcases List.mem_map.1 hmem with ⟨e, he, hes⟩
    rcases mem_calculate_allocation he with
      ⟨-, w, -, price, hprice, hpos, -, -, -⟩
    rw [hes, hp] at hprice
    have : p = price := Option.some.inj hprice
    linarith
  · rw [calculate_allocation, if_neg (by norm_num), List.filterMap_cons,
      List.filterMap_cons, List.filterMap_nil,
      alloc_item_some pricesZeroA ("A", 50) 0 1000 pricesZeroA_A,
      alloc_item_some pricesZeroA ("B", 50) 50 1000 pricesZeroA_B]
    norm_num [pyint]

/-- C6 witness: the universal part applied at the concrete example — `"A"`
(price 0) is absent from the allocation of
`allocate(1000, {"A":0,"B":50}, {"A":50,"B":50})`. -/
theorem C6_witness :
    "A" ∉ (calculate_allocation [("A", 50), ("B", 50)] 100 1000
      pricesZeroA).map Prod.fst :=
  C6_nonpositive_price_never_bought.1 [("A", 50), ("B", 50)] 100 1000
    pricesZeroA "A" 0 pricesZeroA_A (by norm_num)

/-! ### Claim C7 (degenerate inputs) -/

/-- C7, counterexample: with weights `{"A": 300}` (allowed by the claim's
"any valid weights"), cash 200 and price 300, no security is affordable
(200 < 300), yet the allocator does not return an all-zero allocation: it
buys 2 shares of A for 600, refuting the claim. -/
theorem C7_unaffordable_counterexample :
    (200 : ℚ) < 300
    ∧ calculate_allocation [("A", 300)] 100 200 pricesA300
        = [("A", 2, 600)] := by
  refine ⟨by norm_num, ?_⟩
  rw [calculate_allocation, if_neg (by norm_num), List.filterMap_cons,
    List.filterMap_nil,
    alloc_item_some pricesA300 ("A", 300) 300 200 pricesA300_A]
  norm_num [pyint]

/-- C7, amended: the allocator never raises (the embedding is total), and it
returns the empty order list — zero shares for every security — whenever
cash is 0 (unconditionally, for any weights and prices), and also whenever
the funds are nonnegative and no security is affordable, provided every
weight is at most 100 (with a weight above 100 an unaffordable security can
still be bought, per the counterexample). -/
theorem C7_degenerate_inputs_empty (alloc : Alloc) (m funds : ℚ)
    (prices : Prices)
    (hcase : funds = 0
      ∨ (0 ≤ funds ∧ (∀ sw ∈ alloc, sw.2 ≤ 100)
          ∧ ∀ s p, prices s = some p → 0 < p → funds < p)) :
    calculate_allocation alloc m funds prices = [] := by
  unfold calculate_allocation
  by_cases hm : funds < m
  · rw [if_pos hm]
  · rw [if_neg hm]
    rw [List.filterMap_eq_nil_iff]
    intro sw hsw
    rcases hp : prices sw.1 with _ | price
    · exact alloc_item_none prices sw funds hp
    · rw [alloc_item_some prices sw price funds hp]
      by_cases h0 : price ≤ 0
      · rw [if_pos h0]
      · rw [if_neg h0]
        have hpos : 0 < price := lt_of_not_le h0
        have hq : ¬ 0 < pyint (funds * (sw.2 / 100) / price) := by
          rw [pyint_pos_iff]
          intro h1
          rcases hcase with h | ⟨hf, hw, h⟩
          · rw [h] at h1
            norm_num at h1
          · have hple : price ≤ funds * (sw.2 / 100) := by
              have h2 := mul_le_mul_of_nonneg_right h1 hpos.le
              rw [one_mul] at h2
              calc price ≤ funds * (sw.2 / 100) / price * price := h2
                _ = funds * (sw.2 / 100) := div_mul_cancel₀ _ hpos.ne'
            have hle_funds : funds * (sw.2 / 100) ≤ funds := by
              have h3 : sw.2 / 100 ≤ 1 := by
                have := hw sw hsw
                linarith
              nlinarith
            have := h sw.1 price hp hpos
            linarith
        rw [if_neg hq]

/-- C7 witness: zero cash gives the empty (all-zero) allocation even with a
weight of 300 (above 100), and with cash 25, weight 50, threshold 0 and
price 300 the whole universe is unaffordable and the allocation is empty
too. -/
theorem C7_witness :
    calculate_allocation [("A", 300)] 100 0 pricesA300 = []
    ∧ calculate_allocation [("A", 50)] 0 25 pricesA300 = [] := by
  constructor
  · exact C7_degenerate_inputs_empty [("A", 300)] 100 0 pricesA300 (Or.inl rfl)
  · refine C7_degenerate_inputs_empty [("A", 50)] 0 25 pricesA300
      (Or.inr ⟨by norm_num, ?_, ?_⟩)
    · intro sw hsw
      rcases List.mem_cons.1 hsw with h | h
      · rw [h]; norm_num
      · cases h
    · intro s p hsp hpp
      simp only [pricesA300] at hsp
      by_cases hs : s = "A"
      · rw [if_pos hs] at hsp
        have : (300 : ℚ) = p := Option.some.inj hsp
        linarith
      · rw [if_neg hs] at hsp
        exact absurd hsp (by simp)

/-! ### Claim C8 (per-order failure isolation) -/

/-- C8: in non-dry-run order placement every order in the plan is attempted,
in sequence, regardless of earlier failures (the attempted-order log covers
exactly the plan), and the run returns `false` if and only if at least one
order failed (price lookup failure, exception, or a non-201 response). -/
theorem C8_per_order_failure_isolation (outcome : String → OrderOutcome)
    (orders : List (String × ℤ × ℚ)) :
    ((place_limit_orders false outcome orders).1.map Prod.fst
      = orders.map Prod.fst)
    ∧ ((place_limit_orders false outcome orders).2 = false ↔
        ∃ o ∈ orders, attempt_order false (outcome o.1) = false) := by
  unfold place_limit_orders
  rw [place_limit_orders_foldl]
  constructor
  · simp
  · simp [List.all_eq_false]

/-! ### Claim C9 (shape and order of the order plan) -/

/-- C9: every tuple in the plan has a positive quantity (none with
quantity ≤ 0), the plan's keys are a sublist of the weights mapping's keys
(so tuples appear in the deterministic iteration order of the weights
mapping), and distinct configured keys yield at most one tuple per
security. -/
theorem C9_order_plan_shape (alloc : Alloc) (m funds : ℚ) (prices : Prices) :
    (∀ e ∈ calculate_allocation alloc m funds prices, 0 < e.2.1)
    ∧ List.Sublist
        ((calculate_allocation alloc m funds prices).map Prod.fst)
        (alloc.map Prod.fst)
    ∧ ((alloc.map Prod.fst).Nodup →
        ((calculate_allocation alloc m funds prices).map Prod.fst).Nodup) := by
  have hsub : List.Sublist
      ((calculate_allocation alloc m funds prices).map Prod.fst)
      (alloc.map Prod.fst) := by
    unfold calculate_allocation
    by_cases hm : funds < m
    · rw [if_pos hm]
      simp
    · rw [if_neg hm]
      exact keys_sublist funds prices alloc
  refine ⟨?_, hsub, ?_⟩
  · intro e he
    rcases mem_calculate_allocation he with ⟨-, w, -, price, -, -, -, hpos, -⟩
    exact hpos
  · intro hnd
    exact hnd.sublist hsub

/-- C9 witness: at `allocate(1000, {"A":100}, {"A":50,"B":50})` (one missing
price) the plan's only quantity is positive, its keys `["A"]` are a sublist
of `["A","B"]`, and they are duplicate-free. -/
theorem C9_witness :
    (0 : ℤ) < 5
    ∧ List.Sublist ["A"] ["A", "B"]
    ∧ (["A"] : List String).Nodup := by
  have hres : calculate_allocation [("A", 50), ("B", 50)] 100 1000 pricesA100
      = [("A", 5, 500)] := by
    rw [calculate_allocation, if_neg (by norm_num), List.filterMap_cons,
      List.filterMap_cons, List.filterMap_nil,
      alloc_item_some pricesA100 ("A", 50) 100 1000 pricesA100_A,
      alloc_item_none pricesA100 ("B", 50) 1000 pricesA100_B]
    norm_num [pyint]
  have h := C9_order_plan_shape [("A", 50), ("B", 50)] 100 1000 pricesA100
  refine ⟨?_, ?_, ?_⟩
  · exact h.1 ("A", 5, 500) (by rw [hres]; simp)
  · have := h.2.1
    rw [hres] at this
    exact this
  · have := h.2.2 (by simp)
    rw [hres] at this
    exact this

/-! ### Claim C10 (per-security floor formula) -/

/-- C10: for a security `s` present in the weights mapping (with distinct
keys) and in the price table with a positive price, when the available funds
meet the minimum-investment threshold the computed share count is
`int(funds * weight/100 / price)` — the weight is a percentage of 100,
independent of the other securities — and the tuple's dollar amount is
`shares * price`; the tuple is in the result when the count is positive, and
any tuple for `s` in the result carries exactly these values. -/
theorem C10_per_security_floor (alloc : Alloc) (m funds : ℚ) (prices : Prices)
    (s : String) (w price : ℚ) (hnd : (alloc.map Prod.fst).Nodup)
    (hmem : (s, w) ∈ alloc) (hp : prices s = some price) (hpos : 0 < price)
    (hm : m ≤ funds) :
    (0 < pyint (funds * (w / 100) / price) →
      (s, pyint (funds * (w / 100) / price),
        (pyint (funds * (w / 100) / price) : ℚ) * price)
        ∈ calculate_allocation alloc m funds prices)
    ∧ ∀ n a, (s, n, a) ∈ calculate_allocation alloc m funds prices →
        n = pyint (funds * (w / 100) / price) ∧ a = (n : ℚ) * price := by
  constructor
  · intro hn
    unfold calculate_allocation
    rw [if_neg (not_lt.2 hm)]
    refine List.mem_filterMap.2 ⟨(s, w), hmem, ?_⟩
    rw [alloc_item_some prices (s, w) price funds hp, if_neg (not_le.2 hpos),
      if_pos hn]
  · intro n a hmem'
    rcases mem_calculate_allocation hmem' with
      ⟨-, w', hw', price', hp', hpos', hn', -, ha'⟩
    have hww : w' = w := key_weight_unique hnd hw' hmem
    have hpp : price' = price := by
      rw [hp] at hp'
      exact (Option.some.inj hp').symm
    constructor
    · rw [hww, hpp] at hn'
      exact hn'
    · rw [hpp] at ha'
      exact ha'

/-- C10 witness: with weights `{"B": 50}`, funds 1000 and price 50 the
formula gives `int(1000 * 0.5 / 50) = 10` shares for 500 dollars, and that
tuple is in the result. -/
theorem C10_witness :
    ("B", (10 : ℤ), (500 : ℚ))
      ∈ calculate_allocation [("B", 50)] 100 1000 pricesZeroA := by
  have h := C10_per_security_floor [("B", 50)] 100 1000 pricesZeroA "B" 50 50
    (by simp) (by simp) pricesZeroA_B (by norm_num) (by norm_num)
  have hn : pyint (1000 * ((50 : ℚ) / 100) / 50) = 10 := by norm_num [pyint]
  have hmem := h.1 (by rw [hn]; norm_num)
  rw [hn] at hmem
  have hval : ((10 : ℤ) : ℚ) * 50 = 500 := by norm_num
  rw [hval] at hmem
  exact hmem

end AutoInvest
